import Mathlib

/-!
# Verification of the release-automation toolkit

A shallow embedding of `src/scripts/release-process.js` (the ship workflow)
and of the fetch script, with proofs of the specified properties.

JavaScript objects keyed by package name are modelled as association lists
`List (String × V)` with JS object semantics: insertion order is preserved,
inserting an existing key overwrites the value in place, `Object.values`
returns the values in that order, and property lookup returns the first
(unique) binding.  Fields that a spread may leave absent are modelled as
`Option`; a JS `undefined` value is `Option.none`.
-/

set_option autoImplicit false

namespace Release

/-- JS object insertion: overwrite in place if the key exists, else append. -/
def objInsert {V : Type} (k : String) (v : V) : List (String × V) → List (String × V)
  | [] => [(k, v)]
  | (k', v') :: rest => if k' = k then (k, v) :: rest else (k', v') :: objInsert k v rest

/-- JS property read `obj[k]`: the first binding of `k`, if any. -/
def objGet {V : Type} (k : String) : List (String × V) → Option V
  | [] => none
  | (k', v') :: rest => if k' = k then some v' else objGet k rest

/-- JS `Object.values(obj)`, in insertion order. -/
def objValues {V : Type} (o : List (String × V)) : List V :=
  o.map Prod.snd

/-- A dist-tag mapping (a JS object from tag name to version string). -/
abbrev Tags := List (String × String)

/-- JS `tags[k]` on a dist-tag object. -/
def lookupTag (t : Tags) (k : String) : Option String :=
  objGet k t

/-- A local `package.json` as far as the ship flow reads it:
`json['api-builder'].release` plus the rest of the document carried opaquely. -/
structure Manifest where
  release : String
  extra : List (String × String)
deriving Repr, DecidableEq

/-- One element of `getCurrentVersions`'s result:
`{ path, name, version, json }` read from a local package directory. -/
structure PackageRecord where
  path : String
  name : String
  version : String
  json : Manifest
deriving Repr, DecidableEq

/-- One element of `getRegistryVersions`'s result: `{ name, tags }`. -/
structure RegistryTagSet where
  name : String
  tags : Tags
deriving Repr, DecidableEq

/-- A value of the object built by `mergeVersionDetail`.  The two spreads
(`{ ...cur }` and `{ ...col[cur.name], ...cur }`) can each leave fields
absent, so every field except `name` (set by both spreads) is an `Option`. -/
structure MergedPkg where
  path : Option String
  name : String
  version : Option String
  json : Option Manifest
  tags : Option Tags
deriving Repr, DecidableEq

/-- The spread `{ ...cur }` of a local package record. -/
def recordToMerged (c : PackageRecord) : MergedPkg :=
  { path := some c.path, name := c.name, version := some c.version
    json := some c.json, tags := none }

/-- The spread `{ ...col[cur.name], ...cur }` with `cur` a registry record:
`cur`'s own fields (`name`, `tags`) overwrite whatever was there. -/
def mergeRegistry (prev : Option MergedPkg) (r : RegistryTagSet) : MergedPkg :=
  match prev with
  | none => { path := none, name := r.name, version := none, json := none
              tags := some r.tags }
  | some p => { p with name := r.name, tags := some r.tags }

/-- Source `mergeVersionDetail(currentVersions, registryVersions)`: two `reduce`
passes building one object keyed by package name. -/
def mergeVersionDetail (currentVersions : List PackageRecord)
    (registryVersions : List RegistryTagSet) : List (String × MergedPkg) :=
  let pkgs := currentVersions.foldl
    (fun col cur => objInsert cur.name (recordToMerged cur) col) []
  registryVersions.foldl
    (fun col cur => objInsert cur.name (mergeRegistry (objGet cur.name col) cur) col) pkgs

/-- A merged entry with every field present: the shape every entry has when
the registry list covers every local name, which is how `ship` builds it.
This is the spec's `MergedPackageState` entry. -/
structure Pkg where
  path : String
  name : String
  version : String
  json : Manifest
  tags : Tags
deriving Repr, DecidableEq

/-- Totalize a merged value; `none` when some field is absent (in JS a later
property access on it would throw a `TypeError`). -/
def MergedPkg.toPkg (m : MergedPkg) : Option Pkg :=
  match m.path, m.version, m.json, m.tags with
  | some p, some v, some j, some t =>
      some { path := p, name := m.name, version := v, json := j, tags := t }
  | _, _, _, _ => none

/-- Totalize a whole merged object. -/
def totalizeObj (o : List (String × MergedPkg)) : Option (List (String × Pkg)) :=
  o.mapM (fun kv => kv.2.toPkg.map (fun p => (kv.1, p)))

/-- The errors `checkVersions` can throw, carrying the data its message
interpolates. -/
inductive CheckError
  | versionMismatch (name : String) (next : Option String) (version : String)
  | nothingToRelease
deriving Repr, DecidableEq

/-- Render an optional string the way a JS template literal renders it. -/
def optStr : Option String → String
  | some s => s
  | none => "undefined"

/-- The message of a `checkVersions` error, exactly as the source builds it. -/
def CheckError.message : CheckError → String
  | versionMismatch name next version =>
      s!"Cannot release as next does not match git version. The next version of {name} ({optStr next}) is not the same as the local repo version ({version})."
  | nothingToRelease => "No packages have been modified, there is nothing to release."

/-- The `forEach` loop of `checkVersions`: throws on the first package whose
local `version` differs from its `next` dist-tag (`pkg.version !== pkg.tags.next`,
where `pkg.version` is a string and `pkg.tags.next` may be `undefined`). -/
def checkVersionsLoop : List Pkg → Option CheckError
  | [] => none
  | pkg :: rest =>
      if some pkg.version ≠ lookupTag pkg.tags "next" then
        some (.versionMismatch pkg.name (lookupTag pkg.tags "next") pkg.version)
      else checkVersionsLoop rest

/-- JS `Object.values(versionDetail).filter(pkg => pkg.tags.latest !== pkg.tags.next)`. -/
def dirtyPkgs (vals : List Pkg) : List Pkg :=
  vals.filter (fun pkg => lookupTag pkg.tags "latest" ≠ lookupTag pkg.tags "next")

/-- Source `checkVersions(versionDetail)`: the version-drift check, then the no-op
guard on the `dirtyPkgs` filter. -/
def checkVersions (versionDetail : List (String × Pkg)) : Except CheckError Unit :=
  match checkVersionsLoop (objValues versionDetail) with
  | some e => .error e
  | none =>
      if (dirtyPkgs (objValues versionDetail)).isEmpty then
        .error .nothingToRelease
      else .ok ()

/-- The package containing the version name (`versionedPackage` in the source). -/
def versionedPackage : String := "@bladedancer/mod-abc"

/-- The errors `nextReleaseName` can throw, carrying the interpolated data.
`alreadyUsed` carries the current release name (which the source's message
interpolates) and, for every colliding package, its name and the version its
colliding dist-tag points to. -/
inductive NameError
  | notFound (releaseName : String)
  | lastInList (releaseName : String)
  | alreadyUsed (releaseName : String) (pairs : List (String × Option String))
deriving Repr, DecidableEq

/-- The message of a `nextReleaseName` error, exactly as the source builds it. -/
def NameError.message : NameError → String
  | notFound releaseName =>
      s!"The existing release name ({releaseName}) is not found in release names list."
  | lastInList releaseName =>
      s!"The existing release name ({releaseName}) is the last in the list of named releases."
  | alreadyUsed releaseName pairs =>
      let msg := String.intercalate ", "
        (pairs.map (fun dup => dup.1 ++ "@" ++ optStr dup.2))
      s!"The release name ({releaseName}) has already been used by {msg}."

/-- The outcome of `nextReleaseName`.  `crash` is the JS `TypeError` raised
when the versioned package is absent from the state; `ok none` is the
function returning `undefined` (the out-of-bounds read `releaseNames[curIndex + 1]`). -/
inductive NameResult
  | crash
  | err (e : NameError)
  | ok (next : Option String)
deriving Repr, DecidableEq

/-- Source `nextReleaseName(versionDetail)`, parametrized by the external
`release-names.json` list.  Faithful points: `findIndex` never returns
`releaseNames.length`, so that guard is kept as written but can never fire;
when `releaseNames[curIndex + 1]` is `undefined`,
`Object.keys(pkg.tags).indexOf(undefined)` is `-1` for every package (the
keys are strings), so the duplicate filter is empty and `undefined` is
returned. -/
def nextReleaseName (releaseNames : List String)
    (versionDetail : List (String × Pkg)) : NameResult :=
  match objGet versionedPackage versionDetail with
  | none => .crash
  | some vp =>
    let releaseName := vp.json.release
    match releaseNames.findIdx? (· = releaseName) with
    | none => .err (.notFound releaseName)
    | some curIndex =>
      if curIndex = releaseNames.length then .err (.lastInList releaseName)
      else
        match releaseNames.get? (curIndex + 1) with
        | none => .ok none
        | some nextName =>
          let duplicates := (objValues versionDetail).filter
            (fun pkg => (lookupTag pkg.tags nextName).isSome)
          if duplicates.isEmpty then .ok (some nextName)
          else .err (.alreadyUsed releaseName
            (duplicates.map (fun dup => (dup.name, lookupTag dup.tags nextName))))

/-- JS `tag.toLowerCase().replace(/\s/g, '_')`: lower-case every character,
then replace each whitespace character by an underscore (stated on the
string's character list; lowering never produces whitespace). -/
def safeTag (tag : String) : String :=
  ⟨tag.data.map (fun c =>
    let lc := Char.toLower c
    if lc.isWhitespace then '_' else lc)⟩

/-- The observable effects of the ship flow, in dispatch order. -/
inductive Effect
  | registryQuery (name : String)
  | tagAdd (nameVer : String) (tag : String)
  | fileWrite (path : String) (json : Manifest)
  | gitAdd (path : String)
  | gitCommit (message : List String)
  | gitPush
deriving Repr, DecidableEq

/-- Whether an effect mutates the registry, the filesystem or the repository. -/
def Effect.isMutation : Effect → Bool
  | .registryQuery _ => false
  | _ => true

/-- Source `tagRelease(versionDetail, tags)`: one `npm dist-tag add <name>@<version> <safeTag>`
per package × tag, in the nested `forEach` order. -/
def tagRelease (versionDetail : List (String × Pkg)) (tags : List String) :
    List Effect :=
  (objValues versionDetail).flatMap
    (fun pkg => tags.map (fun tag =>
      Effect.tagAdd (pkg.name ++ "@" ++ pkg.version) (safeTag tag)))

/-- The path `updateReleaseName` writes.  The source computes
`path.relative(repoRoot, pkg.path)` first; the embedding keeps package paths
as given, so the relative step is the identity on them. -/
def pkgJsonPath (vpPath : String) : String := vpPath ++ "/package.json"

/-- What `updateReleaseName` produces: the state as it is after the call,
and the file/git effects in order. -/
structure UpdateResult where
  versionDetail : List (String × Pkg)
  effects : List Effect
deriving Repr, DecidableEq

/-- Source `updateReleaseName(versionDetail, newName)`.  The source deep-copies the
versioned package's manifest (`JSON.parse(JSON.stringify(...))`) and sets the
release field on the copy only, so the caller's state is returned untouched;
the commit message reads the release name from the original manifest. -/
def updateReleaseName (versionDetail : List (String × Pkg)) (newName : String) :
    Option UpdateResult :=
  match objGet versionedPackage versionDetail with
  | none => none
  | some vp =>
    let path := pkgJsonPath vp.path
    let newPkgJson : Manifest := { vp.json with release := newName }
    let commitMessage : List String :=
      [ "Released " ++ vp.json.release ++ " [ci-skip]",
        String.intercalate "\n"
          ((objValues versionDetail).map (fun pkg => pkg.name ++ "@" ++ pkg.version)),
        "Next Release: " ++ newName ]
    some { versionDetail := versionDetail
           effects := [ .fileWrite path newPkgJson, .gitAdd path,
                        .gitCommit commitMessage, .gitPush ] }

/-- The local package names, in directory order. -/
def shipNames (currentVersions : List PackageRecord) : List String :=
  currentVersions.map PackageRecord.name

/-- Source `getRegistryVersions` over the local names, with the registry dist-tag
response modelled as a function of the package name
(`distTags ? { ...distTags } : {}` folded into the function's result). -/
def shipRegistryVersions (currentVersions : List PackageRecord)
    (registry : String → Tags) : List RegistryTagSet :=
  (shipNames currentVersions).map (fun n => { name := n, tags := registry n })

/-- The merged state `ship` computes, totalized (every entry is total because
the registry list covers exactly the local names). -/
def shipMerged (currentVersions : List PackageRecord) (registry : String → Tags) :
    Option (List (String × Pkg)) :=
  totalizeObj (mergeVersionDetail currentVersions
    (shipRegistryVersions currentVersions registry))

/-- Effects dispatched by `tagRelease(versionDetail, ['latest', undefined])`
before `undefined.toLowerCase()` throws: the first package's `latest` call. -/
def tagReleaseCrashEffects (versionDetail : List (String × Pkg)) : List Effect :=
  match objValues versionDetail with
  | [] => []
  | pkg :: _ => [.tagAdd (pkg.name ++ "@" ++ pkg.version) (safeTag "latest")]

/-- The outcome of one `ship()` invocation: the effects dispatched, in order,
and the process exit code (`process.exit(1)` in the catch, else 0). -/
structure ShipResult where
  effects : List Effect
  exitCode : Nat
deriving Repr, DecidableEq

/-- Source `ship()`: read local state, query the registry, merge, validate, compute
the next name, and unless `--dry-run` tag and publish.  Any throw is caught
once at the top and turns into exit code 1 with no further effects. -/
def ship (dryRun : Bool) (currentVersions : List PackageRecord)
    (registry : String → Tags) (releaseNames : List String) : ShipResult :=
  let queries := (shipNames currentVersions).map Effect.registryQuery
  match shipMerged currentVersions registry with
  | none => { effects := queries, exitCode := 1 }
  | some versionDetail =>
    match checkVersions versionDetail with
    | .error _ => { effects := queries, exitCode := 1 }
    | .ok _ =>
      match nextReleaseName releaseNames versionDetail with
      | .crash => { effects := queries, exitCode := 1 }
      | .err _ => { effects := queries, exitCode := 1 }
      | .ok none =>
          if dryRun then { effects := queries, exitCode := 0 }
          else { effects := queries ++ tagReleaseCrashEffects versionDetail
                 exitCode := 1 }
      | .ok (some nextName) =>
          if dryRun then { effects := queries, exitCode := 0 }
          else
            let tagEffects := tagRelease versionDetail [ "latest", nextName ]
            match updateReleaseName versionDetail nextName with
            | none => { effects := queries ++ tagEffects, exitCode := 1 }
            | some upd =>
                { effects := queries ++ tagEffects ++ upd.effects, exitCode := 0 }

/-! ## The fetch script -/

/-- The destination folder of the fetch script. -/
def destFolder : String := "published"

/-- The registry base of the fetch script's URL template. -/
def registryBase : String := "http://registry.ecd.axway.int:8081/artifactory/local-npm"

/-- JS `path.join(destFolder, pkg.name + "@" + pkg.version + ".tgz")`. -/
def fetchTarget (name version : String) : String :=
  destFolder ++ "/" ++ name ++ "@" ++ version ++ ".tgz"

/-- The fixed-template download URL. -/
def fetchUrl (name version : String) : String :=
  registryBase ++ "/" ++ name ++ "/-/" ++ name ++ "-" ++ version ++ ".tgz"

/-- JS `path.dirname`: everything before the last slash, `"."` when there is none. -/
def dirname (p : String) : String :=
  let parts := p.splitOn "/"
  if parts.length ≤ 1 then "." else String.intercalate "/" parts.dropLast

/-- The observable effects of the fetch script. -/
inductive FetchEffect
  | mkdir (dir : String)
  | curl (target : String) (url : String)
deriving Repr, DecidableEq

/-- The fetch script's effect sequence: `mkdirp` the target's directory when
it does not exist, then `curl -o target -X GET url`. -/
def fetchEffects (name version : String) (dirExists : String → Bool) :
    List FetchEffect :=
  let target := fetchTarget name version
  let targetDir := dirname target
  (if dirExists targetDir then [] else [.mkdir targetDir]) ++
    [.curl target (fetchUrl name version)]

/-! ## Object-model lemmas -/

theorem objGet_objInsert_self {V : Type} (k : String) (v : V)
    (o : List (String × V)) : objGet k (objInsert k v o) = some v := by
  induction o with
  | nil => simp [objInsert, objGet]
  | cons hd tl ih =>
    obtain ⟨k', v'⟩ := hd
    by_cases h : k' = k
    · simp [objInsert, objGet, h]
    · simp [objInsert, objGet, h, ih]

theorem objGet_objInsert_ne {V : Type} (k k' : String) (v : V)
    (o : List (String × V)) (h : k' ≠ k) :
    objGet k' (objInsert k v o) = objGet k' o := by
  have hne : k ≠ k' := Ne.symm h
  induction o with
  | nil => simp [objInsert, objGet, hne]
  | cons hd tl ih =>
    obtain ⟨k'', v''⟩ := hd
    by_cases hk : k'' = k
    · subst hk
      simp [objInsert, objGet, hne]
    · simp [objInsert, objGet, hk, ih]

theorem objGet_localFold_not_mem (l : List PackageRecord) :
    ∀ (col : List (String × MergedPkg)) (k : String),
    k ∉ l.map PackageRecord.name →
    objGet k (l.foldl (fun col cur => objInsert cur.name (recordToMerged cur) col) col)
      = objGet k col := by
  induction l with
  | nil => intro col k _; rfl
  | cons hd tl ih =>
    intro col k hk
    simp only [List.map_cons, List.mem_cons, not_or] at hk
    rw [List.foldl_cons, ih _ k hk.2, objGet_objInsert_ne _ _ _ _ hk.1]

theorem objGet_localFold_mem (l : List PackageRecord) :
    ∀ (col : List (String × MergedPkg)) (c : PackageRecord),
    (l.map PackageRecord.name).Nodup → c ∈ l →
    objGet c.name (l.foldl (fun col cur => objInsert cur.name (recordToMerged cur) col) col)
      = some (recordToMerged c) := by
  induction l with
  | nil => intro col c _ hc; exact absurd hc (List.not_mem_nil c)
  | cons hd tl ih =>
    intro col c hnd hc
    simp only [List.map_cons, List.nodup_cons] at hnd
    rw [List.foldl_cons]
    rcases List.mem_cons.mp hc with h | h
    · subst h
      rw [objGet_localFold_not_mem tl _ _ hnd.1, objGet_objInsert_self]
    · exact ih _ c hnd.2 h

theorem objGet_regFold_not_mem (l : List RegistryTagSet) :
    ∀ (col : List (String × MergedPkg)) (k : String),
    k ∉ l.map RegistryTagSet.name →
    objGet k (l.foldl
        (fun col cur => objInsert cur.name (mergeRegistry (objGet cur.name col) cur) col) col)
      = objGet k col := by
  induction l with
  | nil => intro col k _; rfl
  | cons hd tl ih =>
    intro col k hk
    simp only [List.map_cons, List.mem_cons, not_or] at hk
    rw [List.foldl_cons, ih _ k hk.2, objGet_objInsert_ne _ _ _ _ hk.1]

theorem objGet_regFold_mem (l : List RegistryTagSet) :
    ∀ (col : List (String × MergedPkg)) (r : RegistryTagSet),
    (l.map RegistryTagSet.name).Nodup → r ∈ l →
    objGet r.name (l.foldl
        (fun col cur => objInsert cur.name (mergeRegistry (objGet cur.name col) cur) col) col)
      = some (mergeRegistry (objGet r.name col) r) := by
  induction l with
  | nil => intro col r _ hr; exact absurd hr (List.not_mem_nil r)
  | cons hd tl ih =>
    intro col r hnd hr
    simp only [List.map_cons, List.nodup_cons] at hnd
    rw [List.foldl_cons]
    rcases List.mem_cons.mp hr with h | h
    · subst h
      rw [objGet_regFold_not_mem tl _ _ hnd.1, objGet_objInsert_self]
    · have hne : r.name ≠ hd.name := by
        intro he
        exact hnd.1 (he ▸ List.mem_map_of_mem RegistryTagSet.name h)
      rw [ih _ r hnd.2 h, objGet_objInsert_ne _ _ _ _ hne]

/-- Claim C2: in the merge of a list of local package records with a list of
registry tag sets for those names (names unique on both sides), every local
package has an entry keyed by its name whose `path`, `version` and manifest
come from the local record, whose `name` is the local name, and whose `tags`
come from the registry record of that name. -/
theorem mergeVersionDetail_local_wins_registry_tags
    (cur : List PackageRecord) (reg : List RegistryTagSet)
    (hcur : (cur.map PackageRecord.name).Nodup)
    (hreg : (reg.map RegistryTagSet.name).Nodup)
    (c : PackageRecord) (hc : c ∈ cur)
    (r : RegistryTagSet) (hr : r ∈ reg) (hname : r.name = c.name) :
    objGet c.name (mergeVersionDetail cur reg) =
      some { path := some c.path, name := c.name, version := some c.version,
             json := some c.json, tags := some r.tags } := by
  unfold mergeVersionDetail
  rw [← hname, objGet_regFold_mem reg _ r hreg hr, hname,
    objGet_localFold_mem cur _ c hcur hc]
  simp [mergeRegistry, recordToMerged, hname]

/-- A concrete local package list for exercising the merge. -/
def exCurC2 : List PackageRecord :=
  [ { path := "packages/a", name := "a", version := "1.0.0"
      json := { release := "Alpha", extra := [] } },
    { path := "packages/b", name := "b", version := "2.0.0"
      json := { release := "", extra := [] } } ]

/-- A concrete registry response list for exercising the merge. -/
def exRegC2 : List RegistryTagSet :=
  [ { name := "a", tags := [("next", "1.0.0")] },
    { name := "b", tags := [("latest", "2.0.0")] } ]

/-- Witness for C2 at a concrete two-package state. -/
theorem mergeVersionDetail_local_wins_registry_tags_witness :
    objGet "b" (mergeVersionDetail exCurC2 exRegC2) =
      some { path := some "packages/b", name := "b", version := some "2.0.0",
             json := some { release := "", extra := [] },
             tags := some [("latest", "2.0.0")] } :=
  mergeVersionDetail_local_wins_registry_tags exCurC2 exRegC2
    (by decide) (by decide)
    { path := "packages/b", name := "b", version := "2.0.0"
      json := { release := "", extra := [] } }
    (by decide)
    { name := "b", tags := [("latest", "2.0.0")] }
    (by decide) rfl

/-! ## Validation lemmas -/

theorem checkVersionsLoop_of_exists (l : List Pkg)
    (h : ∃ p ∈ l, some p.version ≠ lookupTag p.tags "next") :
    ∃ p, p ∈ l ∧ some p.version ≠ lookupTag p.tags "next" ∧
      checkVersionsLoop l =
        some (.versionMismatch p.name (lookupTag p.tags "next") p.version) := by
  induction l with
  | nil => obtain ⟨p, hp, _⟩ := h; exact absurd hp (List.not_mem_nil p)
  | cons hd tl ih =>
    by_cases hhd : some hd.version ≠ lookupTag hd.tags "next"
    · exact ⟨hd, List.mem_cons_self hd tl, hhd, by simp [checkVersionsLoop, hhd]⟩
    · obtain ⟨p, hp, hne⟩ := h
      have hp' : p ∈ tl := by
        rcases List.mem_cons.mp hp with he | he
        · exact absurd (he ▸ hne) hhd
        · exact he
      obtain ⟨q, hq, hqne, hloop⟩ := ih ⟨p, hp', hne⟩
      exact ⟨q, List.mem_cons_of_mem hd hq, hqne,
        by simpa [checkVersionsLoop, hhd] using hloop⟩

theorem checkVersionsLoop_of_forall (l : List Pkg)
    (h : ∀ p ∈ l, some p.version = lookupTag p.tags "next") :
    checkVersionsLoop l = none := by
  induction l with
  | nil => rfl
  | cons hd tl ih =>
    have hhd := h hd (List.mem_cons_self hd tl)
    simp only [checkVersionsLoop, hhd, ne_eq, not_true_eq_false, ite_false]
    exact ih (fun p hp => h p (List.mem_cons_of_mem hd hp))

/-- Claim C3: whenever some package's local version differs from the version
its `next` dist-tag points to, `checkVersions` throws a version-mismatch
error naming such a package (the first one, in state order); no such state
passes validation. -/
theorem checkVersions_mismatch_fails (versionDetail : List (String × Pkg))
    (h : ∃ p ∈ objValues versionDetail, some p.version ≠ lookupTag p.tags "next") :
    (∃ p, p ∈ objValues versionDetail ∧ some p.version ≠ lookupTag p.tags "next" ∧
        checkVersions versionDetail =
          .error (.versionMismatch p.name (lookupTag p.tags "next") p.version)) ∧
      checkVersions versionDetail ≠ .ok () := by
  obtain ⟨p, hp, hne, hloop⟩ := checkVersionsLoop_of_exists _ h
  refine ⟨⟨p, hp, hne, ?_⟩, ?_⟩
  · simp [checkVersions, hloop]
  · simp [checkVersions, hloop]

/-- A package whose local version drifted ahead of its registry `next` tag. -/
def exPkgDrift : Pkg :=
  { path := "packages/b", name := "b", version := "1.3.0"
    json := { release := "Alpha", extra := [] }
    tags := [("latest", "1.1.0"), ("next", "1.2.0")] }

/-- A one-package state that fails the version-drift check. -/
def exStateDrift : List (String × Pkg) := [("b", exPkgDrift)]

/-- Witness for C3: a one-package state whose local version drifted from
its `next` tag. -/
theorem checkVersions_mismatch_fails_witness :
    (∃ p, p ∈ objValues exStateDrift ∧ some p.version ≠ lookupTag p.tags "next" ∧
        checkVersions exStateDrift =
          .error (.versionMismatch p.name (lookupTag p.tags "next") p.version)) ∧
      checkVersions exStateDrift ≠ .ok () :=
  checkVersions_mismatch_fails exStateDrift (by decide)

/-- Claim C4: once every package's local version matches its `next` tag,
`checkVersions` throws the no-op error exactly when every package's `latest`
tag equals its `next` tag, and succeeds as soon as one differs. -/
theorem checkVersions_noop_guard (versionDetail : List (String × Pkg))
    (hver : ∀ p ∈ objValues versionDetail, some p.version = lookupTag p.tags "next") :
    (checkVersions versionDetail = .error .nothingToRelease ↔
        ∀ p ∈ objValues versionDetail,
          lookupTag p.tags "latest" = lookupTag p.tags "next") ∧
      ((∃ p ∈ objValues versionDetail,
          lookupTag p.tags "latest" ≠ lookupTag p.tags "next") →
        checkVersions versionDetail = .ok ()) := by
  have hloop := checkVersionsLoop_of_forall _ hver
  constructor
  · constructor
    · intro hres p hp
      by_contra hne
      have : ¬ (dirtyPkgs (objValues versionDetail)).isEmpty := by
        intro hemp
        have := List.isEmpty_iff.mp hemp
        have hmem : p ∈ dirtyPkgs (objValues versionDetail) := by
          simp [dirtyPkgs, List.mem_filter, hp, hne]
        rw [this] at hmem
        exact List.not_mem_nil p hmem
      simp [checkVersions, hloop, this] at hres
    · intro hall
      have : (dirtyPkgs (objValues versionDetail)).isEmpty := by
        rw [List.isEmpty_iff]
        refine List.filter_eq_nil_iff.mpr (fun p hp => ?_)
        simp [hall p hp]
      simp [checkVersions, hloop, this]
  · intro ⟨p, hp, hne⟩
    have : ¬ (dirtyPkgs (objValues versionDetail)).isEmpty := by
      intro hemp
      have hnil := List.isEmpty_iff.mp hemp
      have hmem : p ∈ dirtyPkgs (objValues versionDetail) := by
        simp [dirtyPkgs, List.mem_filter, hp, hne]
      rw [hnil] at hmem
      exact List.not_mem_nil p hmem
    simp [checkVersions, hloop, this]

/-- A package whose local version matches `next` while `latest` lags behind. -/
def exPkgClean : Pkg :=
  { path := "packages/a", name := "a", version := "1.2.0"
    json := { release := "Alpha", extra := [] }
    tags := [("latest", "1.1.0"), ("next", "1.2.0")] }

/-- A one-package state that passes validation. -/
def exStateClean : List (String × Pkg) := [("a", exPkgClean)]

/-- Witness for C4: a clean one-package state where `latest` differs from
`next` passes validation. -/
theorem checkVersions_noop_guard_witness :
    checkVersions exStateClean = .ok () :=
  (checkVersions_noop_guard exStateClean (by decide)).2 (by decide)

/-! ## Release-name lemmas -/

/-- A versioned-package entry whose stored release name is the last entry of
a two-name release list, with clean tags. -/
def exPkgLastName : Pkg :=
  { path := "packages/mod-abc", name := versionedPackage, version := "1.2.0"
    json := { release := "Beta", extra := [] }
    tags := [("latest", "1.1.0"), ("next", "1.2.0")] }

/-- A one-package state whose stored release name exhausts the list. -/
def exStateLastName : List (String × Pkg) := [(versionedPackage, exPkgLastName)]

/-- Claim C1 (code bug): with the stored release name `"Beta"` the last entry
of the list `["Alpha", "Beta"]`, `nextReleaseName` returns `undefined`
instead of throwing.  `findIndex` yields at most `length - 1`, so the
source's exhaustion guard `curIndex === releaseNames.length` can never fire,
and `releaseNames[curIndex + 1]` reads past the end of the list. -/
theorem nextReleaseName_exhausted_returns_undefined :
    nextReleaseName ["Alpha", "Beta"] exStateLastName = NameResult.ok none := by
  decide

/-- Claim C5: when the stored release name sits at a non-final position and
the candidate next name already exists as a dist-tag on at least one package,
`nextReleaseName` throws the collision error, whose payload lists exactly the
colliding packages, each with the version its colliding dist-tag points to —
in particular it contains every colliding package@version pair. -/
theorem nextReleaseName_collision_reports_all
    (releaseNames : List String) (versionDetail : List (String × Pkg)) (vp : Pkg)
    (hvp : objGet versionedPackage versionDetail = some vp)
    (i : Nat) (hidx : releaseNames.findIdx? (· = vp.json.release) = some i)
    (n : String) (hnext : releaseNames.get? (i + 1) = some n)
    (hdup : ∃ p ∈ objValues versionDetail, (lookupTag p.tags n).isSome) :
    nextReleaseName releaseNames versionDetail =
      .err (.alreadyUsed vp.json.release
        (((objValues versionDetail).filter
            (fun p => (lookupTag p.tags n).isSome)).map
          (fun d => (d.name, lookupTag d.tags n)))) ∧
    ∀ p ∈ objValues versionDetail, (lookupTag p.tags n).isSome →
      (p.name, lookupTag p.tags n) ∈
        (((objValues versionDetail).filter
            (fun p => (lookupTag p.tags n).isSome)).map
          (fun d => (d.name, lookupTag d.tags n))) := by
  have hlt : i + 1 < releaseNames.length := by
    have := List.get?_eq_some.mp hnext
    exact this.1
  have hne : ¬ i = releaseNames.length := by omega
  obtain ⟨q, hq, hqdup⟩ := hdup
  have hfilter : q ∈ (objValues versionDetail).filter
      (fun p => (lookupTag p.tags n).isSome) :=
    List.mem_filter.mpr ⟨hq, hqdup⟩
  have hnonempty : ¬ ((objValues versionDetail).filter
      (fun p => (lookupTag p.tags n).isSome)).isEmpty := by
    intro hemp
    rw [List.isEmpty_iff.mp hemp] at hfilter
    exact List.not_mem_nil q hfilter
  constructor
  · simp only [nextReleaseName, hvp, hidx, hnext, hne, ite_false, if_neg hne]
    simp [hnonempty]
  · intro p hp hpdup
    exact List.mem_map_of_mem _ (List.mem_filter.mpr ⟨hp, hpdup⟩)

/-- A state whose candidate next release name `"Beta"` already tags a package. -/
def exPkgCollide : Pkg :=
  { path := "packages/mod-abc", name := versionedPackage, version := "1.2.0"
    json := { release := "Alpha", extra := [] }
    tags := [("latest", "1.1.0"), ("next", "1.2.0"), ("Beta", "0.9.0")] }

/-- A one-package state with a release-name collision. -/
def exStateCollide : List (String × Pkg) := [(versionedPackage, exPkgCollide)]

/-- Witness for C5 on the collision state: the error carries the colliding
`package@version` pair. -/
theorem nextReleaseName_collision_reports_all_witness :
    nextReleaseName ["Alpha", "Beta", "Gamma"] exStateCollide =
      .err (.alreadyUsed "Alpha"
        (((objValues exStateCollide).filter
            (fun p => (lookupTag p.tags "Beta").isSome)).map
          (fun d => (d.name, lookupTag d.tags "Beta")))) :=
  (nextReleaseName_collision_reports_all ["Alpha", "Beta", "Gamma"]
    exStateCollide exPkgCollide rfl 0 (by decide) "Beta" (by decide)
    ⟨exPkgCollide, by decide, by decide⟩).1

/-! ## Tagging lemmas -/

/-- Claim C6: every `npm dist-tag add` command `tagRelease` dispatches carries
a normalized tag — for each package and label the command tags
`<name>@<version>` with `safeTag label`, nothing else is dispatched, and the
label `"Spring Fling"` normalizes to `spring_fling`. -/
theorem tagRelease_normalizes (versionDetail : List (String × Pkg))
    (labels : List String) :
    (∀ pkg ∈ objValues versionDetail, ∀ l ∈ labels,
        Effect.tagAdd (pkg.name ++ "@" ++ pkg.version) (safeTag l) ∈
          tagRelease versionDetail labels) ∧
    (∀ e ∈ tagRelease versionDetail labels,
        ∃ pkg ∈ objValues versionDetail, ∃ l ∈ labels,
          e = Effect.tagAdd (pkg.name ++ "@" ++ pkg.version) (safeTag l)) ∧
    safeTag "Spring Fling" = "spring_fling" := by
  refine ⟨?_, ?_, by decide⟩
  · intro pkg hpkg l hl
    simp only [tagRelease, List.mem_flatMap]
    exact ⟨pkg, hpkg, List.mem_map_of_mem _ hl⟩
  · intro e he
    simp only [tagRelease, List.mem_flatMap, List.mem_map] at he
    obtain ⟨pkg, hpkg, l, hl, he⟩ := he
    exact ⟨pkg, hpkg, l, hl, he.symm⟩

/-- Witness for C6: tagging the clean one-package state with the label
`"Spring Fling"` dispatches the normalized tag. -/
theorem tagRelease_normalizes_witness :
    Effect.tagAdd ("a" ++ "@" ++ "1.2.0") (safeTag "Spring Fling") ∈
      tagRelease exStateClean ["Spring Fling"] :=
  (tagRelease_normalizes exStateClean ["Spring Fling"]).1
    exPkgClean (by decide) "Spring Fling" (by decide)

/-! ## Update lemmas -/

/-- Claim C10: `updateReleaseName` leaves the in-memory state untouched (the
manifest is deep-copied before the release field is set), so the returned
state is the input state, the `Released` line of the commit message carries
the previous release name, the `Next Release` line carries the new one, and
only the written manifest has its release field set to the new name. -/
theorem updateReleaseName_frame (versionDetail : List (String × Pkg)) (vp : Pkg)
    (newName : String)
    (hvp : objGet versionedPackage versionDetail = some vp) :
    updateReleaseName versionDetail newName = some
      { versionDetail := versionDetail
        effects :=
          [ .fileWrite (pkgJsonPath vp.path) { vp.json with release := newName },
            .gitAdd (pkgJsonPath vp.path),
            .gitCommit
              [ "Released " ++ vp.json.release ++ " [ci-skip]",
                String.intercalate "\n"
                  ((objValues versionDetail).map
                    (fun pkg => pkg.name ++ "@" ++ pkg.version)),
                "Next Release: " ++ newName ],
            .gitPush ] } := by
  simp [updateReleaseName, hvp]

/-- Witness for C10: updating the exhaustion example state to `"Gamma"`
keeps the state (and its stored `"Beta"`) intact while the written manifest
carries `"Gamma"`. -/
theorem updateReleaseName_frame_witness :
    updateReleaseName exStateLastName "Gamma" = some
      { versionDetail := exStateLastName
        effects :=
          [ .fileWrite (pkgJsonPath exPkgLastName.path)
              { exPkgLastName.json with release := "Gamma" },
            .gitAdd (pkgJsonPath exPkgLastName.path),
            .gitCommit
              [ "Released " ++ exPkgLastName.json.release ++ " [ci-skip]",
                String.intercalate "\n"
                  ((objValues exStateLastName).map
                    (fun pkg => pkg.name ++ "@" ++ pkg.version)),
                "Next Release: " ++ "Gamma" ],
            .gitPush ] } :=
  updateReleaseName_frame exStateLastName exPkgLastName "Gamma" rfl

/-! ## Ship orchestration lemmas -/

/-- Claim C7: on `--dry-run` with a valid state the ship flow still reads the
local packages and queries the registry for each of them (its effect list is
exactly the registry queries, in package order), validation and next-name
computation succeed, and nothing mutates: no dist-tag is applied, no file is
written, no git command runs, and the process exits 0. -/
theorem ship_dryRun_frame (currentVersions : List PackageRecord)
    (registry : String → Tags) (releaseNames : List String)
    (versionDetail : List (String × Pkg)) (next : Option String)
    (hm : shipMerged currentVersions registry = some versionDetail)
    (hc : checkVersions versionDetail = .ok ())
    (hn : nextReleaseName releaseNames versionDetail = NameResult.ok next) :
    (ship true currentVersions registry releaseNames).effects =
      (shipNames currentVersions).map Effect.registryQuery ∧
    (ship true currentVersions registry releaseNames).exitCode = 0 ∧
    ∀ e ∈ (ship true currentVersions registry releaseNames).effects,
      e.isMutation = false := by
  have hship : ship true currentVersions registry releaseNames =
      { effects := (shipNames currentVersions).map Effect.registryQuery
        exitCode := 0 } := by
    unfold ship
    rw [hm]
    simp only [hc, hn]
    cases next <;> simp
  refine ⟨by rw [hship], by rw [hship], ?_⟩
  intro e he
  rw [hship] at he
  obtain ⟨n', _, he⟩ := List.mem_map.mp he
  rw [← he]
  rfl

/-- A valid one-package repository for exercising `ship`. -/
def exCurShip : List PackageRecord :=
  [ { path := "packages/mod-abc", name := versionedPackage, version := "1.2.0"
      json := { release := "Alpha", extra := [] } } ]

/-- A registry in which the local version is published as `next` and
`latest` lags one release behind. -/
def exRegistryShip : String → Tags :=
  fun _ => [("latest", "1.1.0"), ("next", "1.2.0")]

/-- The release-name list for the ship examples. -/
def exNamesShip : List String := ["Alpha", "Beta", "Gamma"]

/-- The merged state `ship` computes on the valid example. -/
def exVdShip : List (String × Pkg) :=
  [ (versionedPackage,
     { path := "packages/mod-abc", name := versionedPackage, version := "1.2.0"
       json := { release := "Alpha", extra := [] }
       tags := [("latest", "1.1.0"), ("next", "1.2.0")] }) ]

/-- Witness for C7 on the valid example repository. -/
theorem ship_dryRun_frame_witness :
    (ship true exCurShip exRegistryShip exNamesShip).effects =
      (shipNames exCurShip).map Effect.registryQuery ∧
    (ship true exCurShip exRegistryShip exNamesShip).exitCode = 0 ∧
    ∀ e ∈ (ship true exCurShip exRegistryShip exNamesShip).effects,
      e.isMutation = false :=
  ship_dryRun_frame exCurShip exRegistryShip exNamesShip exVdShip
    (some "Beta") (by decide) rfl (by decide)

/-- Claim C8: when the merged state fails validation, the ship flow performs
no mutation whatever the dry-run flag: its effects are exactly the registry
queries and it exits 1 — validation runs strictly before any dist-tag
application. -/
theorem ship_validation_failure_frame (dryRun : Bool)
    (currentVersions : List PackageRecord) (registry : String → Tags)
    (releaseNames : List String) (versionDetail : List (String × Pkg))
    (e : CheckError)
    (hm : shipMerged currentVersions registry = some versionDetail)
    (hc : checkVersions versionDetail = .error e) :
    (ship dryRun currentVersions registry releaseNames).effects =
      (shipNames currentVersions).map Effect.registryQuery ∧
    (ship dryRun currentVersions registry releaseNames).exitCode = 1 ∧
    ∀ ef ∈ (ship dryRun currentVersions registry releaseNames).effects,
      ef.isMutation = false := by
  have hship : ship dryRun currentVersions registry releaseNames =
      { effects := (shipNames currentVersions).map Effect.registryQuery
        exitCode := 1 } := by
    unfold ship
    rw [hm]
    simp [hc]
  refine ⟨by rw [hship], by rw [hship], ?_⟩
  intro ef hef
  rw [hship] at hef
  obtain ⟨n', _, hef⟩ := List.mem_map.mp hef
  rw [← hef]
  rfl

/-- The valid example repository with the local version bumped to `1.3.0`
while the registry `next` still points at `1.2.0`. -/
def exCurShipBad : List PackageRecord :=
  [ { path := "packages/mod-abc", name := versionedPackage, version := "1.3.0"
      json := { release := "Alpha", extra := [] } } ]

/-- The merged state `ship` computes on the drifted example. -/
def exVdShipBad : List (String × Pkg) :=
  [ (versionedPackage,
     { path := "packages/mod-abc", name := versionedPackage, version := "1.3.0"
       json := { release := "Alpha", extra := [] }
       tags := [("latest", "1.1.0"), ("next", "1.2.0")] }) ]

/-- Witness for C8 on the drifted example repository (non-dry-run). -/
theorem ship_validation_failure_frame_witness :
    (ship false exCurShipBad exRegistryShip exNamesShip).effects =
      (shipNames exCurShipBad).map Effect.registryQuery ∧
    (ship false exCurShipBad exRegistryShip exNamesShip).exitCode = 1 ∧
    ∀ ef ∈ (ship false exCurShipBad exRegistryShip exNamesShip).effects,
      ef.isMutation = false :=
  ship_validation_failure_frame false exCurShipBad exRegistryShip exNamesShip
    exVdShipBad
    (.versionMismatch versionedPackage (some "1.2.0") "1.3.0")
    (by decide) rfl

/-! ## Fetch lemmas -/

/-- Claim C9: the fetch workflow builds its URL from the manifest's name and
version with the fixed template — the registry base, then the name, then a
lone dash segment, then `<name>-<version>.tgz` —
writes the artifact to `published/<name>@<version>.tgz`, and creates the
destination directory first exactly when it does not already exist. -/
theorem fetch_url_target_mkdir (name version : String)
    (dirExists : String → Bool) :
    fetchUrl name version =
      registryBase ++ "/" ++ name ++ "/-/" ++ name ++ "-" ++ version ++ ".tgz" ∧
    fetchTarget name version = "published/" ++ name ++ "@" ++ version ++ ".tgz" ∧
    (dirExists (dirname (fetchTarget name version)) = true →
      fetchEffects name version dirExists =
        [.curl (fetchTarget name version) (fetchUrl name version)]) ∧
    (dirExists (dirname (fetchTarget name version)) = false →
      fetchEffects name version dirExists =
        [ .mkdir (dirname (fetchTarget name version)),
          .curl (fetchTarget name version) (fetchUrl name version) ]) := by
  refine ⟨rfl, rfl, ?_, ?_⟩
  · intro h
    simp [fetchEffects, h]
  · intro h
    simp [fetchEffects, h]

/-- Witness for C9 at a concrete package with no pre-existing directory. -/
theorem fetch_url_target_mkdir_witness :
    fetchEffects "mod-abc" "1.2.0" (fun _ => false) =
      [ .mkdir (dirname (fetchTarget "mod-abc" "1.2.0")),
        .curl (fetchTarget "mod-abc" "1.2.0") (fetchUrl "mod-abc" "1.2.0") ] :=
  (fetch_url_target_mkdir "mod-abc" "1.2.0" (fun _ => false)).2.2.2 rfl

end Release
